import Mathlib

/-!
Shallow embedding of `gen_manifest.py` (brandonbunt/art365).

The script parses artwork metadata out of image filenames with two
regular expressions, sorts the files by their leading numeric prefix,
and assembles a JSON manifest.  Strings are modelled as `List Char`;
the regex patterns are modelled as token lists for a small backtracking
matcher whose search order (greedy longest-first, lazy shortest-first,
left to right, first match wins) is that of Python's `re.match`.
-/

namespace Art365

/-- Character classes occurring in the patterns: `\d`, `\s`, and `.`
(any character except a newline).  `\d` and `\s` are modelled over their
ASCII members, which is what the repository's filenames use. -/
inductive CC where
  | digit
  | space
  | anyNoNl
deriving DecidableEq, Repr

def CC.test : CC → Char → Bool
  | .digit, c => '0' ≤ c && c ≤ '9'
  | .space, c => c = ' ' || c = '\t' || c = '\n' || c = '\r' || c = '\x0b' || c = '\x0c'
  | .anyNoNl, c => c != '\n'

/-- One token of a pattern.  Quantifiers in the two patterns of
`parse_filename` only ever apply to single-character classes, so the
patterns flatten to token lists:
`(\d+)` is `grpPlusG i digit`, `\.` is `lit`, `\s*` is `starG space`,
`(.+?)` is `grpPlusL i anyNoNl`, `\s+` is `plusG space`,
`(\d{4})` is `grpRepN i digit 4`. -/
inductive RItem where
  | lit (c : Char)
  | starG (k : CC)
  | plusG (k : CC)
  | grpPlusG (i : Nat) (k : CC)
  | grpPlusL (i : Nat) (k : CC)
  | grpRepN (i : Nat) (k : CC) (n : Nat)
deriving DecidableEq, Repr

/-- Captured groups, keyed by group number. -/
abbrev Caps := List (Nat × List Char)

/-- Length of the maximal run of `k`-characters at the head of `s`. -/
def runLen (k : CC) (s : List Char) : Nat := (s.takeWhile k.test).length

/-- `[m, m-1, ..., 1]`: a greedy quantifier's repetition counts in the
order Python's backtracking tries them (longest first). -/
def countdown : Nat → List Nat
  | 0 => []
  | n + 1 => (n + 1) :: countdown n

/-- `[m, m-1, ..., 1, 0]`: repetition counts for a greedy star. -/
def countdown0 (m : Nat) : List Nat := countdown m ++ [0]

/-- `[1, 2, ..., m]`: repetition counts for a lazy quantifier
(shortest first). -/
def countup : Nat → List Nat
  | 0 => []
  | n + 1 => countup n ++ [n + 1]

/-- First `some` value of `f` along the candidate list. -/
def firstSome {α : Type} (f : Nat → Option α) : List Nat → Option α
  | [] => none
  | n :: ns =>
    match f n with
    | some r => some r
    | none => firstSome f ns

/-- Backtracking matcher, anchored at the start of the input as
`re.match` is; the pattern may end before the input does.  Returns the
captures of the first match in Python's search order, or `none`. -/
def reMatch : List RItem → List Char → Caps → Option Caps
  | [], _, caps => some caps
  | .lit c :: rest, s, caps =>
    match s with
    | [] => none
    | c' :: s' => if c' = c then reMatch rest s' caps else none
  | .starG k :: rest, s, caps =>
    firstSome (fun n => reMatch rest (s.drop n) caps) (countdown0 (runLen k s))
  | .plusG k :: rest, s, caps =>
    firstSome (fun n => reMatch rest (s.drop n) caps) (countdown (runLen k s))
  | .grpPlusG i k :: rest, s, caps =>
    firstSome (fun n => reMatch rest (s.drop n) ((i, s.take n) :: caps)) (countdown (runLen k s))
  | .grpPlusL i k :: rest, s, caps =>
    firstSome (fun n => reMatch rest (s.drop n) ((i, s.take n) :: caps)) (countup (runLen k s))
  | .grpRepN i k n :: rest, s, caps =>
    if n ≤ runLen k s then reMatch rest (s.drop n) ((i, s.take n) :: caps) else none

/-- `re.match(pat, s)`. -/
def pyMatch (pat : List RItem) (s : List Char) : Option Caps := reMatch pat s []

/-- `m.group(i)` (each group in the two patterns captures exactly once
per match). -/
def group (caps : Caps) (i : Nat) : List Char := (caps.lookup i).getD []

/-- Primary pattern `(\d+)\.\s*(.+?)\s+by\s+(.+?),\s*(\d{4})`. -/
def primaryRE : List RItem :=
  [.grpPlusG 1 .digit, .lit '.', .starG .space, .grpPlusL 2 .anyNoNl,
   .plusG .space, .lit 'b', .lit 'y', .plusG .space, .grpPlusL 3 .anyNoNl,
   .lit ',', .starG .space, .grpRepN 4 .digit 4]

/-- Fallback pattern `(\d+)\.\s*(.+?),\s*(\d{4})`. -/
def fallbackRE : List RItem :=
  [.grpPlusG 1 .digit, .lit '.', .starG .space, .grpPlusL 2 .anyNoNl,
   .lit ',', .starG .space, .grpRepN 3 .digit 4]

/-- Index of the last `'.'` in the list, if any. -/
def lastDotIdx : List Char → Option Nat
  | [] => none
  | c :: s =>
    match lastDotIdx s with
    | some d => some (d + 1)
    | none => if c = '.' then some 0 else none

/-- `os.path.splitext(filename)[0]` for a plain file name (entries of
`os.listdir` contain no path separator): the name is cut at its last
dot, except when every character before that dot is itself a dot. -/
def splitextRoot (s : List Char) : List Char :=
  match lastDotIdx s with
  | none => s
  | some d => if (s.take d).all (· = '.') then s else s.take d

/-- `str.strip()` (ASCII whitespace). -/
def pstrip (s : List Char) : List Char :=
  ((s.dropWhile CC.space.test).reverse.dropWhile CC.space.test).reverse

/-- `int(...)` on a string of decimal digits. -/
def digitsToNat (ds : List Char) : Nat :=
  ds.foldl (fun acc c => acc * 10 + (c.toNat - '0'.toNat)) 0

/-- Result of `parse_filename`: either the `(number, title, artist,
year)` tuple (title `none` when the fallback pattern matched), or the
`(None, None, None, None)` failure tuple. -/
inductive ParseResult where
  | parsed (number : Nat) (title : Option (List Char)) (artist : List Char) (year : Nat)
  | unparsed
deriving DecidableEq, Repr

/-- `parse_filename`: strip the extension, try the primary pattern,
then the fallback; the failure branch additionally prints a warning,
which the driver model records. -/
def parse_filename (filename : List Char) : ParseResult :=
  let name := splitextRoot filename
  match pyMatch primaryRE name with
  | some m =>
    .parsed (digitsToNat (group m 1)) (some (pstrip (group m 2)))
      (pstrip (group m 3)) (digitsToNat (group m 4))
  | none =>
    match pyMatch fallbackRE name with
    | some m =>
      .parsed (digitsToNat (group m 1)) none (pstrip (group m 2)) (digitsToNat (group m 3))
    | none => .unparsed

/-- Pattern `(\d+)` used for the sort key. -/
def sortKeyRE : List RItem := [.grpPlusG 1 .digit]

/-- Sort key of line 61:
`int(re.match(r'(\d+)', x).group(1)) if re.match(r'(\d+)', x) else 999`. -/
def sortKey (x : List Char) : Nat :=
  match pyMatch sortKeyRE x with
  | some m => digitsToNat (group m 1)
  | none => 999

/-- `f.lower().endswith(('.jpg', '.jpeg', '.png'))`. -/
def isImageFile (f : List Char) : Bool :=
  let l := f.map Char.toLower
  ".jpg".data.isSuffixOf l || ".jpeg".data.isSuffixOf l || ".png".data.isSuffixOf l

/-- One manifest entry.  `title := none` models the absence of the
`"title"` key in the Python dict. -/
structure ImageEntry where
  id : Nat
  filename : List Char
  artist : List Char
  year : Nat
  url : List Char
  title : Option (List Char)
deriving DecidableEq, Repr

/-- The fixed URL base of line 75. -/
def urlBase : List Char :=
  "https://raw.githubusercontent.com/brandonbunt/art365/main/images/".data

/-- Python truthiness of the `title` variable in `if title:`:
`None` and the empty string are falsy. -/
def truthyTitle : Option (List Char) → Option (List Char)
  | some t => if t = [] then none else some t
  | none => none

/-- The dict built in the loop body (lines 70-79): the `"title"` key is
added only when `title` is truthy. -/
def mkEntry (filename : List Char) (number : Nat) (title : Option (List Char))
    (artist : List Char) (year : Nat) : ImageEntry :=
  { id := number, filename := filename, artist := artist, year := year,
    url := urlBase ++ filename, title := truthyTitle title }

/-- The manifest record that is serialized to `manifest.json`. -/
structure Manifest where
  version : List Char
  total_images : Nat
  images : List ImageEntry
deriving DecidableEq, Repr

/-- Console messages, abstracting the `print` calls (the f-string
payloads are kept as data). -/
inductive Msg where
  | dirNotFound (dir : List Char)
  | runFromRoot
  | foundImages (n : Nat) (dir : List Char)
  | parsingFilenames
  | warnUnparsed (filename : List Char)
  | progress (number : Nat) (title : Option (List Char)) (artist : List Char) (year : Nat)
  | generated
  | totalImages (n : Nat)
  | nextSteps
deriving DecidableEq, Repr

/-- Whether `parse_filename` succeeded (the `number is not None` test of
line 69). -/
def parseOk (f : List Char) : Bool :=
  match parse_filename f with
  | .parsed _ _ _ _ => true
  | .unparsed => false

/-- The entry the loop appends for a file, if any. -/
def entryOf (f : List Char) : Option ImageEntry :=
  match parse_filename f with
  | .parsed n t a y => some (mkEntry f n t a y)
  | .unparsed => none

/-- The `for filename in image_files:` loop (lines 66-87): entries
appended for parseable files, console output per file (the warning of
line 38 is printed inside `parse_filename`; it is recorded here, at the
point of that call). -/
def processFiles : List (List Char) → List ImageEntry × List Msg
  | [] => ([], [])
  | f :: fs =>
    let r := processFiles fs
    match parse_filename f with
    | .unparsed => (r.1, Msg.warnUnparsed f :: r.2)
    | .parsed n t a y =>
      (mkEntry f n t a y :: r.1,
       Msg.progress n (truthyTitle t) a y :: r.2)

/-- Result of a run: console transcript and the `manifest.json` content,
if one was written.  The directory's existence and its listing are the
two filesystem observations the script makes; they are passed in. -/
structure GenResult where
  console : List Msg
  written : Option Manifest
deriving DecidableEq, Repr

/-- `generate_manifest` (lines 41-101). -/
def generate_manifest (images_dir : List Char) (dirExists : Bool)
    (listing : List (List Char)) : GenResult :=
  if dirExists = false then
    { console := [Msg.dirNotFound images_dir, Msg.runFromRoot], written := none }
  else
    let image_files := listing.filter isImageFile
    let sorted := image_files.insertionSort (fun a b => sortKey a ≤ sortKey b)
    let entries := (processFiles sorted).1
    let msgs := (processFiles sorted).2
    { console := Msg.foundImages image_files.length images_dir :: Msg.parsingFilenames ::
        msgs ++ [Msg.generated, Msg.totalImages entries.length, Msg.nextSteps],
      written := some { version := "1.0".data, total_images := entries.length,
                        images := entries } }

/-- The image files of the listing in processing order: extension
filter (line 57), then the stable sort by leading-digit key (line 61).
Python's `list.sort` is a stable sort, and all stable sorts under the
same key preorder agree, so the stable `insertionSort` models it
exactly. -/
def sortedFiles (listing : List (List Char)) : List (List Char) :=
  (listing.filter isImageFile).insertionSort (fun a b => sortKey a ≤ sortKey b)

/-! ### Concrete example inputs -/

/-- The worked example filename of the spec. -/
def sunFile : List Char := "1. The Sun by Giuseppe Pellizza da Volpedo, 1904.jpg".data

/-- The entry the worked example produces. -/
def sunEntry : ImageEntry :=
  { id := 1,
    filename := sunFile,
    artist := "Giuseppe Pellizza da Volpedo".data,
    year := 1904,
    url := urlBase ++ sunFile,
    title := some "The Sun".data }

/-- The spec's fallback-only example filename. -/
def artistFile : List Char := "42. Artist Name, 1872.jpg".data

/-- Two distinct filenames sharing the leading numeric prefix `1`. -/
def dupA : List Char := "1. A, 1900.jpg".data

/-- Second filename with leading numeric prefix `1`. -/
def dupB : List Char := "1. B, 1901.jpg".data

/-- The manifest written for the listing `[dupA, dupB]`. -/
def mDup : Manifest :=
  { version := "1.0".data, total_images := 2,
    images := [mkEntry dupA 1 none "A".data 1900, mkEntry dupB 1 none "B".data 1901] }

/-- Primary-matching filename with no space after the comma. -/
def noSpaceFile : List Char := "1. T by A,1904.jpg".data

/-- Primary-matching filename whose post-comma digit run has five
digits. -/
def fiveDigitFile : List Char := "1. T by A, 19045.jpg".data

/-- Primary-matching filename whose captured title is a single space
(the lazy `(.+?)` swallows the first of the two spaces after the
period). -/
def wsTitleFile : List Char := "1.  by X, 1904.jpg".data

/-- An image file neither pattern matches. -/
def oopsFile : List Char := "oops.jpg".data

/-- A titled, parseable file used alongside the others. -/
def okFile : List Char := "2. A by B, 1900.jpg".data

/-- The manifest written for the listing `[okFile, artistFile]`. -/
def mDistinct : Manifest :=
  { version := "1.0".data, total_images := 2,
    images := [mkEntry okFile 2 (some "A".data) "B".data 1900,
               mkEntry artistFile 42 none "Artist Name".data 1872] }

/-- The manifest written for the single-file listing `[artistFile]`. -/
def mArtist : Manifest :=
  { version := "1.0".data, total_images := 1,
    images := [mkEntry artistFile 42 none "Artist Name".data 1872] }

/-! ### Facts about the matcher -/

theorem mem_countdown {n m : Nat} : n ∈ countdown m ↔ 1 ≤ n ∧ n ≤ m := by
  induction m with
  | zero => simp [countdown]; omega
  | succ k ih => simp [countdown, ih]; omega

theorem mem_countdown0 {n m : Nat} : n ∈ countdown0 m ↔ n ≤ m := by
  simp [countdown0, mem_countdown]; omega

theorem mem_countup {n m : Nat} : n ∈ countup m ↔ 1 ≤ n ∧ n ≤ m := by
  induction m with
  | zero => simp [countup]; omega
  | succ k ih => simp [countup, ih]; omega

theorem firstSome_some {α : Type} {f : Nat → Option α} {l : List Nat} {r : α}
    (h : firstSome f l = some r) : ∃ n ∈ l, f n = some r := by
  induction l with
  | nil => simp [firstSome] at h
  | cons n ns ih =>
    rw [firstSome] at h
    cases hf : f n with
    | some v => rw [hf] at h; exact ⟨n, by simp, by rw [hf]; exact h⟩
    | none =>
      rw [hf] at h
      obtain ⟨m, hm, hfm⟩ := ih h
      exact ⟨m, by simp [hm], hfm⟩

theorem runLen_cons (k : CC) (c : Char) (s : List Char) :
    runLen k (c :: s) = if k.test c then runLen k s + 1 else 0 := by
  simp only [runLen, List.takeWhile_cons]
  split <;> simp

theorem runLen_le_length (k : CC) (s : List Char) : runLen k s ≤ s.length :=
  (List.takeWhile_sublist k.test).length_le

theorem drop_head_of_lt_runLen {k : CC} {s : List Char} {n : Nat} (h : n < runLen k s) :
    ∃ c s', s.drop n = c :: s' ∧ k.test c = true := by
  induction s generalizing n with
  | nil => simp [runLen] at h
  | cons c s ih =>
    rw [runLen_cons] at h
    by_cases hc : k.test c
    · rw [if_pos hc] at h
      cases n with
      | zero => exact ⟨c, s, rfl, hc⟩
      | succ m => exact ih (by omega)
    · rw [if_neg hc] at h; omega

theorem take_all_of_le_runLen {k : CC} {s : List Char} {n : Nat} (h : n ≤ runLen k s) :
    (s.take n).all k.test = true := by
  induction s generalizing n with
  | nil => simp
  | cons c s ih =>
    rw [runLen_cons] at h
    by_cases hc : k.test c
    · rw [if_pos hc] at h
      cases n with
      | zero => simp
      | succ m => simpa [hc] using ih (by omega)
    · rw [if_neg hc] at h
      have : n = 0 := by omega
      simp [this]

theorem take_runLen (k : CC) (s : List Char) : s.take (runLen k s) = s.takeWhile k.test := by
  induction s with
  | nil => simp
  | cons c s ih =>
    rw [runLen_cons]
    by_cases hc : k.test c
    · simp [hc, List.takeWhile_cons, ih]
    · simp [hc, List.takeWhile_cons]

theorem runLen_eq_of_block {k : CC} {s : List Char} {R : Nat} {c : Char} {rest : List Char}
    (h1 : (s.take R).all k.test = true) (h2 : s.drop R = c :: rest) (h3 : k.test c = false) :
    runLen k s = R := by
  induction s generalizing R with
  | nil => simp at h2
  | cons a s ih =>
    cases R with
    | zero =>
      simp only [List.drop_zero] at h2
      injection h2 with h2a h2b
      rw [runLen_cons, h2a, h3]
      simp
    | succ R =>
      simp only [List.take_succ_cons, List.all_cons, Bool.and_eq_true] at h1
      simp only [List.drop_succ_cons] at h2
      rw [runLen_cons, if_pos h1.1, ih h1.2 h2]

theorem inv_lit {c : Char} {rest : List RItem} {s : List Char} {caps r : Caps}
    (h : reMatch (.lit c :: rest) s caps = some r) :
    ∃ s', s = c :: s' ∧ reMatch rest s' caps = some r := by
  cases s with
  | nil => simp [reMatch] at h
  | cons c' s' =>
    simp only [reMatch] at h
    by_cases hc : c' = c
    · rw [if_pos hc] at h; exact ⟨s', by rw [hc], h⟩
    · rw [if_neg hc] at h; cases h

theorem inv_starG {k : CC} {rest : List RItem} {s : List Char} {caps r : Caps}
    (h : reMatch (.starG k :: rest) s caps = some r) :
    ∃ n, n ≤ runLen k s ∧ (s.take n).all k.test = true ∧
      reMatch rest (s.drop n) caps = some r := by
  rw [reMatch] at h
  obtain ⟨n, hn, hf⟩ := firstSome_some h
  exact ⟨n, mem_countdown0.mp hn, take_all_of_le_runLen (mem_countdown0.mp hn), hf⟩

theorem inv_plusG {k : CC} {rest : List RItem} {s : List Char} {caps r : Caps}
    (h : reMatch (.plusG k :: rest) s caps = some r) :
    ∃ n, 1 ≤ n ∧ n ≤ runLen k s ∧ (s.take n).all k.test = true ∧
      reMatch rest (s.drop n) caps = some r := by
  rw [reMatch] at h
  obtain ⟨n, hn, hf⟩ := firstSome_some h
  obtain ⟨h1, h2⟩ := mem_countdown.mp hn
  exact ⟨n, h1, h2, take_all_of_le_runLen h2, hf⟩

theorem inv_grpPlusL {i : Nat} {k : CC} {rest : List RItem} {s : List Char} {caps r : Caps}
    (h : reMatch (.grpPlusL i k :: rest) s caps = some r) :
    ∃ n, 1 ≤ n ∧ n ≤ runLen k s ∧ (s.take n).all k.test = true ∧
      reMatch rest (s.drop n) ((i, s.take n) :: caps) = some r := by
  rw [reMatch] at h
  obtain ⟨n, hn, hf⟩ := firstSome_some h
  obtain ⟨h1, h2⟩ := mem_countup.mp hn
  exact ⟨n, h1, h2, take_all_of_le_runLen h2, hf⟩

theorem inv_grpRepN {i m : Nat} {k : CC} {rest : List RItem} {s : List Char} {caps r : Caps}
    (h : reMatch (.grpRepN i k m :: rest) s caps = some r) :
    m ≤ runLen k s ∧ (s.take m).all k.test = true ∧
      reMatch rest (s.drop m) ((i, s.take m) :: caps) = some r := by
  rw [reMatch] at h
  by_cases hm : m ≤ runLen k s
  · rw [if_pos hm] at h; exact ⟨hm, take_all_of_le_runLen hm, h⟩
  · rw [if_neg hm] at h; cases h

/-- A greedy `(\d+)`-style group followed by a literal outside the
class: only the maximal run can succeed, so the capture is exactly the
leading run. -/
theorem inv_grpPlusG_lit {i : Nat} {k : CC} {c : Char} {rest : List RItem}
    {s : List Char} {caps r : Caps} (hc : k.test c = false)
    (h : reMatch (.grpPlusG i k :: .lit c :: rest) s caps = some r) :
    1 ≤ runLen k s ∧
      reMatch (.lit c :: rest) (s.drop (runLen k s))
        ((i, s.take (runLen k s)) :: caps) = some r := by
  rw [reMatch] at h
  obtain ⟨n, hn, hf⟩ := firstSome_some h
  obtain ⟨h1, h2⟩ := mem_countdown.mp hn
  rcases Nat.lt_or_ge n (runLen k s) with hlt | hge
  · exfalso
    obtain ⟨c', s', hdrop, htest⟩ := drop_head_of_lt_runLen hlt
    rw [hdrop] at hf
    simp only [reMatch] at hf
    have hne : c' ≠ c := fun he => by rw [he, hc] at htest; cases htest
    rw [if_neg hne] at hf; cases hf
  · have heq : n = runLen k s := le_antisymm h2 hge
    subst heq
    exact ⟨h1, hf⟩

/-- Decomposition of a successful primary-pattern match:
`<digits> '.' <ws*> <title> <ws+> "by" <ws+> <artist> ',' <ws*> <4 digits> <rest>`,
with the four captures identified.  The `<digits>` capture is exactly
the leading digit run of the input, and the four year digits need not
end the input. -/
theorem primary_shape {s : List Char} {r : Caps} (h : reMatch primaryRE s [] = some r) :
    ∃ d sp1 t sp2 sp3 a sp4 y rest,
      s = d ++ '.' :: (sp1 ++ (t ++ (sp2 ++ ('b' :: 'y' ::
        (sp3 ++ (a ++ ',' :: (sp4 ++ (y ++ rest)))))))) ∧
      d = s.takeWhile CC.digit.test ∧ 1 ≤ d.length ∧
      sp1.all CC.space.test = true ∧
      1 ≤ t.length ∧
      1 ≤ sp2.length ∧ sp2.all CC.space.test = true ∧
      1 ≤ sp3.length ∧ sp3.all CC.space.test = true ∧
      1 ≤ a.length ∧
      sp4.all CC.space.test = true ∧
      y.length = 4 ∧ y.all CC.digit.test = true ∧
      r = [(4, y), (3, a), (2, t), (1, d)] := by
  rw [primaryRE] at h
  obtain ⟨hR1, h⟩ := inv_grpPlusG_lit (by decide) h
  set R := runLen CC.digit s with hRdef
  set d := s.take R with hddef
  obtain ⟨s2, hs2, h⟩ := inv_lit h
  have e0 : s = d ++ '.' :: s2 := by
    rw [hddef, ← hs2]; exact (List.take_append_drop R s).symm
  obtain ⟨n1, hn1le, hsp1all, h⟩ := inv_starG h
  set sp1 := s2.take n1 with hsp1def
  set s3 := s2.drop n1 with hs3def
  have e1 : s2 = sp1 ++ s3 := (List.take_append_drop n1 s2).symm
  obtain ⟨n2, hn2ge, hn2le, _, h⟩ := inv_grpPlusL h
  set t := s3.take n2 with htdef
  set s4 := s3.drop n2 with hs4def
  have e2 : s3 = t ++ s4 := (List.take_append_drop n2 s3).symm
  obtain ⟨n3, hn3ge, hn3le, hsp2all, h⟩ := inv_plusG h
  set sp2 := s4.take n3 with hsp2def
  set s5 := s4.drop n3 with hs5def
  have e3 : s4 = sp2 ++ s5 := (List.take_append_drop n3 s4).symm
  obtain ⟨s6, hs6, h⟩ := inv_lit h
  obtain ⟨s7, hs7, h⟩ := inv_lit h
  obtain ⟨n4, hn4ge, hn4le, hsp3all, h⟩ := inv_plusG h
  set sp3 := s7.take n4 with hsp3def
  set s8 := s7.drop n4 with hs8def
  have e6 : s7 = sp3 ++ s8 := (List.take_append_drop n4 s7).symm
  obtain ⟨n5, hn5ge, hn5le, _, h⟩ := inv_grpPlusL h
  set a := s8.take n5 with hadef
  set s9 := s8.drop n5 with hs9def
  have e7 : s8 = a ++ s9 := (List.take_append_drop n5 s8).symm
  obtain ⟨s10, hs10, h⟩ := inv_lit h
  obtain ⟨n6, hn6le, hsp4all, h⟩ := inv_starG h
  set sp4 := s10.take n6 with hsp4def
  set s11 := s10.drop n6 with hs11def
  have e9 : s10 = sp4 ++ s11 := (List.take_append_drop n6 s10).symm
  obtain ⟨hy4, hyall, h⟩ := inv_grpRepN h
  set y := s11.take 4 with hydef
  set rest := s11.drop 4 with hrestdef
  have e10 : s11 = y ++ rest := (List.take_append_drop 4 s11).symm
  rw [reMatch] at h
  have hr : r = [(4, y), (3, a), (2, t), (1, d)] := (Option.some.inj h).symm
  have hdlen : d.length = R := by
    rw [hddef, List.length_take]
    exact Nat.min_eq_left (hRdef ▸ runLen_le_length CC.digit s)
  have htlen : t.length = n2 := by
    rw [htdef, List.length_take]
    exact Nat.min_eq_left (le_trans hn2le (runLen_le_length _ _))
  have hsp2len : sp2.length = n3 := by
    rw [hsp2def, List.length_take]
    exact Nat.min_eq_left (le_trans hn3le (runLen_le_length _ _))
  have hsp3len : sp3.length = n4 := by
    rw [hsp3def, List.length_take]
    exact Nat.min_eq_left (le_trans hn4le (runLen_le_length _ _))
  have halen : a.length = n5 := by
    rw [hadef, List.length_take]
    exact Nat.min_eq_left (le_trans hn5le (runLen_le_length _ _))
  have hylen : y.length = 4 := by
    rw [hydef, List.length_take]
    exact Nat.min_eq_left (le_trans hy4 (runLen_le_length _ _))
  refine ⟨d, sp1, t, sp2, sp3, a, sp4, y, rest, ?_, ?_, ?_, hsp1all, ?_, ?_, hsp2all,
    ?_, hsp3all, ?_, hsp4all, hylen, hyall, hr⟩
  · rw [e0, e1, e2, e3, hs6, hs7, e6, e7, hs10, e9, e10]
  · rw [hddef, hRdef]; exact take_runLen _ _
  · omega
  · omega
  · omega
  · omega
  · omega

/-- Decomposition of a successful fallback-pattern match:
`<digits> '.' <ws*> <artist> ',' <ws*> <4 digits> <rest>`. -/
theorem fallback_shape {s : List Char} {r : Caps} (h : reMatch fallbackRE s [] = some r) :
    ∃ d sp1 a sp2 y rest,
      s = d ++ '.' :: (sp1 ++ (a ++ ',' :: (sp2 ++ (y ++ rest)))) ∧
      d = s.takeWhile CC.digit.test ∧ 1 ≤ d.length ∧
      sp1.all CC.space.test = true ∧
      1 ≤ a.length ∧
      sp2.all CC.space.test = true ∧
      y.length = 4 ∧ y.all CC.digit.test = true ∧
      r = [(3, y), (2, a), (1, d)] := by
  rw [fallbackRE] at h
  obtain ⟨hR1, h⟩ := inv_grpPlusG_lit (by decide) h
  set R := runLen CC.digit s with hRdef
  set d := s.take R with hddef
  obtain ⟨s2, hs2, h⟩ := inv_lit h
  have e0 : s = d ++ '.' :: s2 := by
    rw [hddef, ← hs2]; exact (List.take_append_drop R s).symm
  obtain ⟨n1, hn1le, hsp1all, h⟩ := inv_starG h
  set sp1 := s2.take n1 with hsp1def
  set s3 := s2.drop n1 with hs3def
  have e1 : s2 = sp1 ++ s3 := (List.take_append_drop n1 s2).symm
  obtain ⟨n2, hn2ge, hn2le, _, h⟩ := inv_grpPlusL h
  set a := s3.take n2 with hadef
  set s4 := s3.drop n2 with hs4def
  have e2 : s3 = a ++ s4 := (List.take_append_drop n2 s3).symm
  obtain ⟨s5, hs5, h⟩ := inv_lit h
  obtain ⟨n3, hn3le, hsp2all, h⟩ := inv_starG h
  set sp2 := s5.take n3 with hsp2def
  set s6 := s5.drop n3 with hs6def
  have e4 : s5 = sp2 ++ s6 := (List.take_append_drop n3 s5).symm
  obtain ⟨hy4, hyall, h⟩ := inv_grpRepN h
  set y := s6.take 4 with hydef
  set rest := s6.drop 4 with hrestdef
  have e5 : s6 = y ++ rest := (List.take_append_drop 4 s6).symm
  rw [reMatch] at h
  have hr : r = [(3, y), (2, a), (1, d)] := (Option.some.inj h).symm
  have hdlen : d.length = R := by
    rw [hddef, List.length_take]
    exact Nat.min_eq_left (hRdef ▸ runLen_le_length CC.digit s)
  have halen : a.length = n2 := by
    rw [hadef, List.length_take]
    exact Nat.min_eq_left (le_trans hn2le (runLen_le_length _ _))
  have hylen : y.length = 4 := by
    rw [hydef, List.length_take]
    exact Nat.min_eq_left (le_trans hy4 (runLen_le_length _ _))
  refine ⟨d, sp1, a, sp2, y, rest, ?_, ?_, ?_, hsp1all, ?_, hsp2all, hylen, hyall, hr⟩
  · rw [e0, e1, e2, hs5, e4, e5]
  · rw [hddef, hRdef]; exact take_runLen _ _
  · omega
  · omega

/-- If the extension-stripped name is a `take` of the filename and its
leading digit run is followed by a non-digit inside the name, then the
filename has the same leading digit run. -/
theorem runLen_take_transfer {f : List Char} {dd : Nat} {c : Char} {tail : List Char}
    (hc : CC.digit.test c = false)
    (hdrop : (f.take dd).drop (runLen CC.digit (f.take dd)) = c :: tail) :
    runLen CC.digit f = runLen CC.digit (f.take dd) ∧
    f.takeWhile CC.digit.test = (f.take dd).takeWhile CC.digit.test := by
  set m := f.take dd with hm
  set R := runLen CC.digit m with hR
  have hall : (m.take R).all CC.digit.test = true := take_all_of_le_runLen (le_refl R)
  have hlt : R < m.length := by
    by_contra hle
    rw [List.drop_eq_nil_of_le (by omega)] at hdrop
    cases hdrop
  have hRdd : R ≤ dd := by
    have := List.length_take dd f
    rw [← hm] at this
    omega
  have htake : m.take R = f.take R := by
    rw [hm, List.take_take, Nat.min_eq_left hRdd]
  have hdropf : ∃ tail', f.drop R = c :: tail' := by
    rw [hm, List.drop_take] at hdrop
    cases hfd : f.drop R with
    | nil => rw [hfd] at hdrop; simp at hdrop
    | cons c0 u =>
      rw [hfd] at hdrop
      cases hk : dd - R with
      | zero => rw [hk] at hdrop; simp at hdrop
      | succ k =>
        rw [hk, List.take_succ_cons] at hdrop
        injection hdrop with h1 _
        exact ⟨u, by rw [h1]⟩
  obtain ⟨tail', hdropf⟩ := hdropf
  have hrun : runLen CC.digit f = R :=
    runLen_eq_of_block (htake ▸ hall) hdropf hc
  refine ⟨hrun, ?_⟩
  rw [← take_runLen CC.digit f, ← take_runLen CC.digit m, hrun, ← hR, htake]

/-- Shape-transfer through `splitextRoot`: if the stripped name's
leading digit run is followed by a non-digit, the filename has the same
leading digit run as the stripped name. -/
theorem runLen_root_transfer {f : List Char} {c : Char} {tail : List Char}
    (hc : CC.digit.test c = false)
    (hdrop : (splitextRoot f).drop (runLen CC.digit (splitextRoot f)) = c :: tail) :
    runLen CC.digit f = runLen CC.digit (splitextRoot f) ∧
    f.takeWhile CC.digit.test = (splitextRoot f).takeWhile CC.digit.test := by
  have hcases : splitextRoot f = f ∨ ∃ dd, splitextRoot f = f.take dd := by
    unfold splitextRoot
    cases lastDotIdx f with
    | none => exact Or.inl rfl
    | some d =>
      by_cases hall : (f.take d).all (· = '.')
      · exact Or.inl (by simp [hall])
      · exact Or.inr ⟨d, by simp [hall]⟩
  rcases hcases with heq | ⟨dd, heq⟩
  · rw [heq]; exact ⟨rfl, rfl⟩
  · rw [heq] at hdrop ⊢
    exact runLen_take_transfer hc hdrop

/-- When the input starts with a digit, the sort-key regex `(\d+)`
matches and captures exactly the leading digit run. -/
theorem sortKey_head_digit {f : List Char} (h : 1 ≤ runLen CC.digit f) :
    sortKey f = digitsToNat (f.takeWhile CC.digit.test) := by
  obtain ⟨R, hR⟩ : ∃ R, runLen CC.digit f = R + 1 := ⟨runLen CC.digit f - 1, by omega⟩
  unfold sortKey pyMatch sortKeyRE
  simp only [reMatch, hR, countdown, firstSome]
  rw [← hR, take_runLen]
  simp [group, List.lookup]

/-- A successfully parsed filename starts with a digit run, the parsed
number is the integer value of that run, and the sort key of line 61
computes the same value. -/
theorem parsed_number {f : List Char} {n : Nat} {t : Option (List Char)}
    {a : List Char} {y : Nat}
    (h : parse_filename f = .parsed n t a y) :
    1 ≤ runLen CC.digit f ∧
    n = digitsToNat (f.takeWhile CC.digit.test) ∧
    sortKey f = n := by
  unfold parse_filename at h
  dsimp only at h
  cases hp : pyMatch primaryRE (splitextRoot f) with
  | some m =>
    rw [hp] at h
    injection h with hn _ _ _
    have hp' : reMatch primaryRE (splitextRoot f) [] = some m := hp
    obtain ⟨d, sp1, tt, sp2, sp3, aa, sp4, yy, rest, heq, hd, hdlen,
      _, _, _, _, _, _, _, _, _, _, hr⟩ := primary_shape hp'
    have hg1 : group m 1 = d := by rw [hr]; simp [group, List.lookup]
    have hRname : runLen CC.digit (splitextRoot f) = d.length := by
      rw [runLen, ← hd]
    have hdropname : (splitextRoot f).drop (runLen CC.digit (splitextRoot f)) =
        '.' :: (sp1 ++ (tt ++ (sp2 ++ ('b' :: 'y' ::
          (sp3 ++ (aa ++ ',' :: (sp4 ++ (yy ++ rest)))))))) := by
      rw [hRname]
      conv_lhs => rw [heq]
      exact List.drop_left' rfl
    obtain ⟨hrun, htw⟩ := runLen_root_transfer (by decide) hdropname
    refine ⟨by omega, ?_, ?_⟩
    · rw [← hn, hg1, htw, hd]
    · rw [sortKey_head_digit (by omega), htw, ← hd, ← hg1]; exact hn
  | none =>
    rw [hp] at h
    cases hq : pyMatch fallbackRE (splitextRoot f) with
    | some m =>
      rw [hq] at h
      injection h with hn _ _ _
      have hq' : reMatch fallbackRE (splitextRoot f) [] = some m := hq
      obtain ⟨d, sp1, aa, sp2, yy, rest, heq, hd, hdlen, _, _, _, _, _, hr⟩ :=
        fallback_shape hq'
      have hg1 : group m 1 = d := by rw [hr]; simp [group, List.lookup]
      have hRname : runLen CC.digit (splitextRoot f) = d.length := by
        rw [runLen, ← hd]
      have hdropname : (splitextRoot f).drop (runLen CC.digit (splitextRoot f)) =
          '.' :: (sp1 ++ (aa ++ ',' :: (sp2 ++ (yy ++ rest)))) := by
        rw [hRname]
        conv_lhs => rw [heq]
        exact List.drop_left' rfl
      obtain ⟨hrun, htw⟩ := runLen_root_transfer (by decide) hdropname
      refine ⟨by omega, ?_, ?_⟩
      · rw [← hn, hg1, htw, hd]
      · rw [sortKey_head_digit (by omega), htw, ← hd, ← hg1]; exact hn
    | none => rw [hq] at h; cases h

/-! ### Facts about the pipeline -/

theorem pstrip_of_all_space {s : List Char} (h : s.all CC.space.test = true) :
    pstrip s = [] := by
  unfold pstrip
  have h1 : s.dropWhile CC.space.test = [] :=
    List.dropWhile_eq_nil_iff.mpr (fun x hx => by
      exact List.all_eq_true.mp h x hx)
  rw [h1]
  simp

theorem entryOf_eq_some {f : List Char} {e : ImageEntry} (h : entryOf f = some e) :
    ∃ n t a y, parse_filename f = .parsed n t a y ∧ e = mkEntry f n t a y := by
  unfold entryOf at h
  cases hp : parse_filename f with
  | parsed n t a y => rw [hp] at h; exact ⟨n, t, a, y, rfl, (Option.some.inj h).symm⟩
  | unparsed => rw [hp] at h; cases h

theorem entryOf_filename {f : List Char} {e : ImageEntry} (h : entryOf f = some e) :
    e.filename = f := by
  obtain ⟨n, t, a, y, _, he⟩ := entryOf_eq_some h
  rw [he]; rfl

theorem entryOf_isSome_iff {f : List Char} : (entryOf f).isSome = parseOk f := by
  unfold entryOf parseOk
  cases parse_filename f <;> rfl

theorem entryOf_parsed {f : List Char} {n : Nat} {t : Option (List Char)}
    {a : List Char} {y : Nat} (hp : parse_filename f = .parsed n t a y) :
    entryOf f = some (mkEntry f n t a y) := by
  unfold entryOf; rw [hp]

theorem entryOf_unparsed {f : List Char} (hp : parse_filename f = .unparsed) :
    entryOf f = none := by
  unfold entryOf; rw [hp]

theorem processFiles_entries (fs : List (List Char)) :
    (processFiles fs).1 = fs.filterMap entryOf := by
  induction fs with
  | nil => rfl
  | cons f fs ih =>
    rw [processFiles, List.filterMap_cons]
    cases hp : parse_filename f with
    | parsed n t a y =>
      rw [entryOf_parsed hp]
      dsimp only
      rw [ih]
    | unparsed =>
      rw [entryOf_unparsed hp]
      dsimp only
      rw [ih]

theorem processFiles_warn {fs : List (List Char)} {f : List Char}
    (hmem : f ∈ fs) (hun : parse_filename f = .unparsed) :
    Msg.warnUnparsed f ∈ (processFiles fs).2 := by
  induction fs with
  | nil => cases hmem
  | cons g fs ih =>
    rw [processFiles]
    rcases List.mem_cons.mp hmem with heq | hmem'
    · subst heq
      rw [hun]
      exact List.mem_cons_self _ _
    · cases hp : parse_filename g with
      | parsed n t a y => exact List.mem_cons_of_mem _ (ih hmem')
      | unparsed => exact List.mem_cons_of_mem _ (ih hmem')

theorem generate_manifest_true (dir : List Char) (listing : List (List Char)) :
    generate_manifest dir true listing =
      { console := Msg.foundImages (listing.filter isImageFile).length dir ::
          Msg.parsingFilenames ::
          ((processFiles (sortedFiles listing)).2 ++
            [Msg.generated,
             Msg.totalImages ((sortedFiles listing).filterMap entryOf).length,
             Msg.nextSteps]),
        written := some { version := "1.0".data,
                          total_images := ((sortedFiles listing).filterMap entryOf).length,
                          images := (sortedFiles listing).filterMap entryOf } } := by
  unfold generate_manifest sortedFiles
  rw [if_neg (by simp)]
  dsimp only
  rw [processFiles_entries]
  rfl

theorem parseOk_of_parsed {f : List Char} {n : Nat} {t : Option (List Char)}
    {a : List Char} {y : Nat} (hp : parse_filename f = .parsed n t a y) :
    parseOk f = true := by
  unfold parseOk; rw [hp]

theorem parseOk_of_unparsed {f : List Char} (hp : parse_filename f = .unparsed) :
    parseOk f = false := by
  unfold parseOk; rw [hp]

/-- The processing order is sorted by non-decreasing sort key. -/
theorem sortedFiles_pairwise (listing : List (List Char)) :
    (sortedFiles listing).Pairwise (fun a b => sortKey a ≤ sortKey b) := by
  haveI : IsTotal (List Char) (fun a b => sortKey a ≤ sortKey b) :=
    ⟨fun a b => Nat.le_total (sortKey a) (sortKey b)⟩
  haveI : IsTrans (List Char) (fun a b => sortKey a ≤ sortKey b) :=
    ⟨fun a b c hab hbc => Nat.le_trans hab hbc⟩
  exact List.sorted_insertionSort (fun a b => sortKey a ≤ sortKey b)
    (listing.filter isImageFile)

/-- The filenames of the produced entries are exactly the parseable
files, in order. -/
theorem images_filenames (fs : List (List Char)) :
    (fs.filterMap entryOf).map ImageEntry.filename = fs.filter parseOk := by
  induction fs with
  | nil => rfl
  | cons f fs ih =>
    cases hp : parse_filename f with
    | parsed n t a y =>
      rw [List.filterMap_cons, entryOf_parsed hp,
        List.filter_cons_of_pos (parseOk_of_parsed hp), List.map_cons, ih]
      rfl
    | unparsed =>
      rw [List.filterMap_cons, entryOf_unparsed hp,
        List.filter_cons_of_neg (by rw [parseOk_of_unparsed hp]; simp), ih]

/-- The ids of the produced entries are the sort keys of the parseable
files, in order. -/
theorem images_ids (fs : List (List Char)) :
    (fs.filterMap entryOf).map ImageEntry.id = (fs.filter parseOk).map sortKey := by
  induction fs with
  | nil => rfl
  | cons f fs ih =>
    cases hp : parse_filename f with
    | parsed n t a y =>
      obtain ⟨_, _, hkey⟩ := parsed_number hp
      rw [List.filterMap_cons, entryOf_parsed hp,
        List.filter_cons_of_pos (parseOk_of_parsed hp), List.map_cons, List.map_cons, ih]
      have : (mkEntry f n t a y).id = sortKey f := hkey.symm
      rw [this]
    | unparsed =>
      rw [List.filterMap_cons, entryOf_unparsed hp,
        List.filter_cons_of_neg (by rw [parseOk_of_unparsed hp]; simp), ih]

/-- Inversion of a successful run: the written manifest is determined
by the listing. -/
theorem written_inv {dir : List Char} {listing : List (List Char)} {m : Manifest}
    (h : (generate_manifest dir true listing).written = some m) :
    m = { version := "1.0".data,
          total_images := ((sortedFiles listing).filterMap entryOf).length,
          images := (sortedFiles listing).filterMap entryOf } := by
  rw [generate_manifest_true] at h
  exact (Option.some.inj h).symm

theorem parse_primary {f : List Char} {m : Caps}
    (h : pyMatch primaryRE (splitextRoot f) = some m) :
    parse_filename f = .parsed (digitsToNat (group m 1)) (some (pstrip (group m 2)))
      (pstrip (group m 3)) (digitsToNat (group m 4)) := by
  unfold parse_filename
  dsimp only
  rw [h]

theorem parse_fallback {f : List Char} {m : Caps}
    (hp : pyMatch primaryRE (splitextRoot f) = none)
    (hf : pyMatch fallbackRE (splitextRoot f) = some m) :
    parse_filename f = .parsed (digitsToNat (group m 1)) none (pstrip (group m 2))
      (digitsToNat (group m 3)) := by
  unfold parse_filename
  dsimp only
  rw [hp, hf]

/-! ### The claims -/

/-- C7: if the input directory does not exist, `generate_manifest`
reports it on the console (the error line and the run-from-repo-root
hint) and returns early: no `manifest.json` is written and nothing else
is produced. -/
theorem C7_missing_dir (dir : List Char) (listing : List (List Char)) :
    generate_manifest dir false listing =
      { console := [Msg.dirNotFound dir, Msg.runFromRoot], written := none } := by
  rfl

/-- C8: in every manifest that `generate_manifest` serializes, the
`total_images` field equals the length of the `images` sequence at
serialization time. -/
theorem C8_total_images {dir : List Char} {dirExists : Bool}
    {listing : List (List Char)} {m : Manifest}
    (h : (generate_manifest dir dirExists listing).written = some m) :
    m.total_images = m.images.length := by
  cases dirExists with
  | false =>
    have hnone : (generate_manifest dir false listing).written = none := rfl
    rw [hnone] at h
    cases h
  | true =>
    have := written_inv h
    rw [this]

/-- Witness for C8 at the concrete listing `[artistFile]`. -/
theorem C8_total_images_witness :
    mArtist.total_images = mArtist.images.length :=
  @C8_total_images "images".data true [artistFile] mArtist (by decide)

/-- C4: the spec's worked example: parsing
`"1. The Sun by Giuseppe Pellizza da Volpedo, 1904.jpg"` yields id 1,
the full filename, title `"The Sun"`, artist
`"Giuseppe Pellizza da Volpedo"`, year 1904, and the raw-GitHub URL
ending in the filename. -/
theorem C4_sun_example :
    generate_manifest "images".data true [sunFile] =
      { console := [Msg.foundImages 1 "images".data, Msg.parsingFilenames,
                    Msg.progress 1 (some "The Sun".data)
                      "Giuseppe Pellizza da Volpedo".data 1904,
                    Msg.generated, Msg.totalImages 1, Msg.nextSteps],
        written := some { version := "1.0".data, total_images := 1,
                          images := [sunEntry] } } := by
  decide

/-- C9: every successfully parsed filename gets as id the base-10 value
of its leading digit run, which is exactly the sort key that line 61
computes for that file. -/
theorem C9_id_eq_key {f : List Char} {n : Nat} {t : Option (List Char)}
    {a : List Char} {y : Nat} (h : parse_filename f = .parsed n t a y) :
    n = digitsToNat (f.takeWhile CC.digit.test) ∧ sortKey f = n := by
  obtain ⟨_, h1, h2⟩ := parsed_number h
  exact ⟨h1, h2⟩

/-- Witness for C9 at the concrete filename `artistFile`. -/
theorem C9_id_eq_key_witness :
    (42 : Nat) = digitsToNat (artistFile.takeWhile CC.digit.test) ∧
    sortKey artistFile = 42 :=
  @C9_id_eq_key artistFile 42 none "Artist Name".data 1872 (by decide)

/-- C5: the fallback pattern is consulted only when the primary
pattern fails — a primary match alone determines the parse result — and
every filename matched only by the fallback pattern parses with a
`None` title, so the entry built for it carries no title field. -/
theorem C5_fallback_order (f : List Char) :
    (∀ m : Caps, pyMatch primaryRE (splitextRoot f) = some m →
      parse_filename f = .parsed (digitsToNat (group m 1)) (some (pstrip (group m 2)))
        (pstrip (group m 3)) (digitsToNat (group m 4))) ∧
    (∀ m : Caps, pyMatch primaryRE (splitextRoot f) = none →
      pyMatch fallbackRE (splitextRoot f) = some m →
      parse_filename f = .parsed (digitsToNat (group m 1)) none (pstrip (group m 2))
        (digitsToNat (group m 3)) ∧
      entryOf f = some (mkEntry f (digitsToNat (group m 1)) none (pstrip (group m 2))
        (digitsToNat (group m 3))) ∧
      (mkEntry f (digitsToNat (group m 1)) none (pstrip (group m 2))
        (digitsToNat (group m 3))).title = none) := by
  constructor
  · intro m h
    exact parse_primary h
  · intro m hp hf
    exact ⟨parse_fallback hp hf, entryOf_parsed (parse_fallback hp hf), rfl⟩

/-- Witness for C5 at the concrete fallback-only filename
`artistFile`. -/
theorem C5_fallback_order_witness :
    parse_filename artistFile = .parsed 42 none "Artist Name".data 1872 ∧
    (mkEntry artistFile 42 none "Artist Name".data 1872).title = none := by
  obtain ⟨h1, _, h3⟩ := (C5_fallback_order artistFile).2
    [(3, "1872".data), (2, "Artist Name".data), (1, "42".data)] (by decide) (by decide)
  exact ⟨h1, h3⟩

/-- C6: an unparseable image file produces a console warning naming
it, contributes no entry, and does not abort the run: a manifest is
still written, it contains no entry for the offending file, and every
parseable image file of the listing still contributes an entry. -/
theorem C6_warn_continue {dir f : List Char} {listing : List (List Char)}
    (hmem : f ∈ listing) (himg : isImageFile f = true)
    (hun : parse_filename f = .unparsed) :
    Msg.warnUnparsed f ∈ (generate_manifest dir true listing).console ∧
    ∃ m, (generate_manifest dir true listing).written = some m ∧
      (∀ e ∈ m.images, e.filename ≠ f) ∧
      (∀ g ∈ listing, isImageFile g = true → parseOk g = true →
        ∃ e ∈ m.images, e.filename = g) := by
  have hsorted : f ∈ sortedFiles listing := by
    unfold sortedFiles
    exact (List.mem_insertionSort _).mpr (List.mem_filter.mpr ⟨hmem, himg⟩)
  rw [generate_manifest_true]
  constructor
  · have hw := processFiles_warn hsorted hun
    simp only [List.mem_cons, List.mem_append]
    exact Or.inr (Or.inr (Or.inl hw))
  · refine ⟨_, rfl, ?_, ?_⟩
    · intro e he hef
      obtain ⟨g, hg, hge⟩ := List.mem_filterMap.mp he
      obtain ⟨n, t, a, y, hgp, _⟩ := entryOf_eq_some hge
      rw [entryOf_filename hge] at hef
      rw [hef] at hgp
      rw [hgp] at hun
      cases hun
    · intro g hgmem hgimg hgok
      have hgsorted : g ∈ sortedFiles listing := by
        unfold sortedFiles
        exact (List.mem_insertionSort _).mpr (List.mem_filter.mpr ⟨hgmem, hgimg⟩)
      have hsome : (entryOf g).isSome = true := by rw [entryOf_isSome_iff]; exact hgok
      obtain ⟨e, he⟩ := Option.isSome_iff_exists.mp hsome
      exact ⟨e, List.mem_filterMap.mpr ⟨g, hgsorted, he⟩, entryOf_filename he⟩

/-- Witness for C6 at the concrete listing `[okFile, oopsFile]`. -/
theorem C6_warn_continue_witness :
    Msg.warnUnparsed oopsFile ∈
      (generate_manifest "images".data true [okFile, oopsFile]).console :=
  (C6_warn_continue (by decide) (by decide) (by decide)).1

/-- C10: there are filenames the primary pattern matches whose
captured title is whitespace-only (the lazy `(.+?)` can swallow part
of a whitespace run), and whenever the captured title strips to the
empty string the entry built for the file has no title field, even
though the titled pattern matched. -/
theorem C10_ws_title :
    (∃ caps, pyMatch primaryRE (splitextRoot wsTitleFile) = some caps ∧
      group caps 2 ≠ [] ∧ (group caps 2).all CC.space.test = true) ∧
    (∀ f caps, pyMatch primaryRE (splitextRoot f) = some caps →
      (group caps 2).all CC.space.test = true →
      ∃ e, entryOf f = some e ∧ e.title = none) := by
  constructor
  · exact ⟨[(4, "1904".data), (3, "X".data), (2, " ".data), (1, "1".data)],
      by decide, by decide, by decide⟩
  · intro f caps h hsp
    have hpar := parse_primary h
    refine ⟨mkEntry f (digitsToNat (group caps 1)) (some (pstrip (group caps 2)))
      (pstrip (group caps 3)) (digitsToNat (group caps 4)), entryOf_parsed hpar, ?_⟩
    show truthyTitle (some (pstrip (group caps 2))) = none
    rw [pstrip_of_all_space hsp]
    rfl

/-- Witness for C10's universal part at the concrete filename
`wsTitleFile`. -/
theorem C10_ws_title_witness :
    ∃ e, entryOf wsTitleFile = some e ∧ e.title = none :=
  C10_ws_title.2 wsTitleFile [(4, "1904".data), (3, "X".data), (2, " ".data), (1, "1".data)]
    (by decide) (by decide)

/-- C1 counterexample: the listing `[dupA, dupB]` produces a manifest
whose two entries both have leading numeric prefix 1, so the images
sequence is not strictly ordered by ascending leading numeric
prefix. -/
theorem C1_counterexample :
    ((generate_manifest "images".data true [dupA, dupB]).written.map
      (fun m => m.images.map (fun e => sortKey e.filename))) = some [1, 1] ∧
    ¬ List.Pairwise (fun a b : Nat => a < b) [1, 1] := by
  constructor
  · decide
  · decide

/-- C1 (amended): in every written manifest the entries are ordered by
non-decreasing (not strictly increasing: distinct files may share a
prefix) leading numeric prefix of their filenames, and every entry's
filename begins with a digit — filenames without a leading number
never yield entries at all. -/
theorem C1_images_sorted {dir : List Char} {listing : List (List Char)} {m : Manifest}
    (h : (generate_manifest dir true listing).written = some m) :
    List.Pairwise (fun e₁ e₂ => sortKey e₁.filename ≤ sortKey e₂.filename) m.images ∧
    ∀ e ∈ m.images, 1 ≤ runLen CC.digit e.filename := by
  have hm := written_inv h
  subst hm
  constructor
  · have hs := sortedFiles_pairwise listing
    have hfil : ((sortedFiles listing).filter parseOk).Pairwise
        (fun a b => sortKey a ≤ sortKey b) :=
      List.Pairwise.sublist (List.filter_sublist _) hs
    rw [← images_filenames] at hfil
    have h2 := List.pairwise_map.mp hfil
    exact h2
  · intro e he
    obtain ⟨g, hg, hge⟩ := List.mem_filterMap.mp he
    obtain ⟨n, t, a, y, hgp, _⟩ := entryOf_eq_some hge
    rw [entryOf_filename hge]
    exact (parsed_number hgp).1

/-- Witness for C1 (amended) at the concrete listing `[dupA, dupB]`. -/
theorem C1_images_sorted_witness :
    List.Pairwise (fun e₁ e₂ => sortKey e₁.filename ≤ sortKey e₂.filename) mDup.images :=
  (@C1_images_sorted "images".data [dupA, dupB] mDup (by decide)).1

/-- C2 counterexample: two distinct filenames with the same leading
number produce entries with equal ids, so the ids of a manifest are
not pairwise distinct in general. -/
theorem C2_counterexample :
    ((generate_manifest "images".data true [dupA, dupB]).written.map
      (fun m => m.images.map ImageEntry.id)) = some [1, 1] ∧
    ¬ List.Pairwise (fun a b : Nat => a ≠ b) [1, 1] := by
  constructor
  · decide
  · decide

/-- C2 (amended): every entry of a written manifest is a deterministic
function of its filename (in particular its id is), and the ids are
pairwise distinct provided the parseable image files of the listing
have pairwise distinct leading-number values; files with equal leading
numbers yield duplicate ids. -/
theorem C2_ids_distinct {dir : List Char} {listing : List (List Char)} {m : Manifest}
    (h : (generate_manifest dir true listing).written = some m)
    (hdist : List.Pairwise (fun a b => sortKey a ≠ sortKey b)
      ((listing.filter isImageFile).filter parseOk)) :
    (∀ e ∈ m.images, entryOf e.filename = some e) ∧
    List.Pairwise (fun e₁ e₂ => e₁.id ≠ e₂.id) m.images := by
  have hm := written_inv h
  subst hm
  constructor
  · intro e he
    obtain ⟨g, hg, hge⟩ := List.mem_filterMap.mp he
    rw [entryOf_filename hge]
    exact hge
  · have hperm : List.Perm (sortedFiles listing) (listing.filter isImageFile) :=
      List.perm_insertionSort _ _
    have hperm3 : List.Perm (((sortedFiles listing).filter parseOk).map sortKey)
        (((listing.filter isImageFile).filter parseOk).map sortKey) :=
      (hperm.filter _).map _
    have hdist2 : ((((listing.filter isImageFile).filter parseOk)).map sortKey).Pairwise
        (fun a b : Nat => a ≠ b) :=
      List.pairwise_map.mpr hdist
    have hdist3 : (((sortedFiles listing).filter parseOk).map sortKey).Pairwise
        (fun a b : Nat => a ≠ b) :=
      (List.Perm.pairwise_iff (fun hxy => Ne.symm hxy) hperm3).mpr hdist2
    rw [← images_ids] at hdist3
    exact List.pairwise_map.mp hdist3

/-- Witness for C2 (amended) at the concrete listing
`[okFile, artistFile]`, whose leading numbers 2 and 42 differ. -/
theorem C2_ids_distinct_witness :
    List.Pairwise (fun e₁ e₂ => e₁.id ≠ e₂.id) mDistinct.images :=
  (@C2_ids_distinct "images".data [okFile, artistFile] mDistinct
    (by decide) (by decide)).2

/-- C3 counterexample: `"1. T by A,1904.jpg"` is matched by the
primary pattern with year 1904 although no space follows the comma,
and `"1. T by A, 19045.jpg"` parses with year 1904 although the digit
run after the comma-space has five digits, not exactly four. -/
theorem C3_counterexample :
    parse_filename noSpaceFile = .parsed 1 (some "T".data) "A".data 1904 ∧
    parse_filename fiveDigitFile = .parsed 1 (some "T".data) "A".data 1904 := by
  constructor
  · decide
  · decide

/-- C3 (amended): for every filename the primary pattern matches, the
4-digit year capture immediately follows a comma and a possibly empty
whitespace run; the capture is exactly four base-10 digits and the
parsed year is their value, but further characters — digits included —
may follow the capture unmatched. -/
theorem C3_year_after_comma {f : List Char} {caps : Caps}
    (h : pyMatch primaryRE (splitextRoot f) = some caps) :
    ∃ pre sp y rest,
      splitextRoot f = pre ++ ',' :: (sp ++ (y ++ rest)) ∧
      sp.all CC.space.test = true ∧
      y.length = 4 ∧ y.all CC.digit.test = true ∧
      group caps 4 = y ∧
      parse_filename f = .parsed (digitsToNat (group caps 1))
        (some (pstrip (group caps 2))) (pstrip (group caps 3)) (digitsToNat y) := by
  have h' : reMatch primaryRE (splitextRoot f) [] = some caps := h
  obtain ⟨d, sp1, tt, sp2, sp3, aa, sp4, yy, rest, heq, hd, hdlen, hsp1, htt, hsp2l,
    hsp2, hsp3l, hsp3, haa, hsp4, hylen, hyall, hr⟩ := primary_shape h'
  have hg4 : group caps 4 = yy := by rw [hr]; simp [group, List.lookup]
  refine ⟨d ++ '.' :: (sp1 ++ (tt ++ (sp2 ++ ('b' :: 'y' :: (sp3 ++ aa))))), sp4, yy, rest,
    ?_, hsp4, hylen, hyall, hg4, ?_⟩
  · rw [heq]; simp [List.append_assoc]
  · rw [parse_primary h, hg4]

/-- Witness for C3 (amended) at the concrete filename `noSpaceFile`. -/
theorem C3_year_after_comma_witness :
    ∃ pre sp y rest,
      splitextRoot noSpaceFile = pre ++ ',' :: (sp ++ (y ++ rest)) ∧
      sp.all CC.space.test = true ∧
      y.length = 4 ∧ y.all CC.digit.test = true ∧
      group [(4, "1904".data), (3, "A".data), (2, "T".data), (1, "1".data)] 4 = y ∧
      parse_filename noSpaceFile = .parsed
        (digitsToNat (group [(4, "1904".data), (3, "A".data), (2, "T".data), (1, "1".data)] 1))
        (some (pstrip (group [(4, "1904".data), (3, "A".data), (2, "T".data), (1, "1".data)] 2)))
        (pstrip (group [(4, "1904".data), (3, "A".data), (2, "T".data), (1, "1".data)] 3))
        (digitsToNat y) :=
  C3_year_after_comma (by decide)
